import Mathlib

/-!
Verification of the SQL write-operation detector
(`src/mcp_snowflake_server/write_detector.py`, class `SQLWriteDetector`).

The detector analyses the token trees produced by the external `sqlparse`
tokenizer.  Following the specification, the tokenizer is an external
collaborator: we embed its token interface (token type, value, normalized
text, keyword / whitespace judgments, and child tokens of grouped tokens)
and the detector's own code, and we quantify over all token trees the
tokenizer could produce.
-/

namespace WriteDetector

/-- Token types of the `sqlparse.tokens` hierarchy that the detector's code
distinguishes.  `Keyword`, `DML`, `DDL`, `DCL`, `CTE` and `Order` lie below
`Keyword` in the hierarchy (so `ttype in Keyword` holds of them);
`Whitespace` and `Newline` lie below `Whitespace`; `Comment`,
`CommentSingle` and `CommentMultiline` are the comment types, of which only
the bare `Comment` is equal (as opposed to merely subordinate) to
`sqlparse.tokens.Comment`. -/
inductive TType where
  | Keyword
  | DML
  | DDL
  | DCL
  | CTE
  | Order
  | Whitespace
  | Newline
  | Comment
  | CommentSingle
  | CommentMultiline
  | Name
  | Punctuation
  | Literal
  | Other
  deriving DecidableEq, Repr

/-- `tt in sqlparse.tokens.Keyword` (membership in the `Keyword` subtree of
the token-type hierarchy). -/
def TType.inKeyword : TType → Bool
  | .Keyword | .DML | .DDL | .DCL | .CTE | .Order => true
  | _ => false

/-- `tt in sqlparse.tokens.Whitespace` (membership in the `Whitespace`
subtree of the token-type hierarchy). -/
def TType.inWhitespace : TType → Bool
  | .Whitespace | .Newline => true
  | _ => false

/-- A `sqlparse` token: either a plain token (with a token type and its
source text) or a `TokenList` grouping child tokens.  `sqlparse` itself
always gives a `TokenList` the token type `None`; the group constructor
nevertheless carries an optional token type because the detector's code
reads `.ttype` on every token, so the embedding keeps that field. -/
inductive Token where
  | leaf (tt : TType) (v : String)
  | group (gt : Option TType) (children : List Token)

mutual

/-- `Token.value`: the source text of the token; for a `TokenList` it is the
concatenation of the values of its children (`str(self)` in `sqlparse`). -/
def Token.value : Token → String
  | .leaf _ v => v
  | .group _ cs => Token.valueList cs
termination_by structural t => t

/-- Concatenated values of a list of tokens. -/
def Token.valueList : List Token → String
  | [] => ""
  | t :: ts => Token.value t ++ Token.valueList ts
termination_by structural ts => ts

end

/-- `Token.ttype`: the token type; `none` mirrors Python `None`. -/
def Token.ttype : Token → Option TType
  | .leaf tt _ => some tt
  | .group gt _ => gt

/-- `Token.is_keyword = ttype is not None and ttype in Keyword`. -/
def Token.is_keyword (t : Token) : Bool :=
  match t.ttype with
  | some tt => tt.inKeyword
  | none => false

/-- `Token.is_whitespace = ttype is not None and ttype in Whitespace`. -/
def Token.is_whitespace (t : Token) : Bool :=
  match t.ttype with
  | some tt => tt.inWhitespace
  | none => false

/-- Python `str.upper()` on the (ASCII) texts of SQL tokens: upper-case
every character. -/
def strUpper (s : String) : String :=
  ⟨s.data.map Char.toUpper⟩

/-- `Token.normalized = value.upper() if is_keyword else value`. -/
def Token.normalized (t : Token) : String :=
  if t.is_keyword then strUpper t.value else t.value

/-- Python substring test `needle in hay` on strings. -/
def strContains (hay needle : String) : Bool :=
  decide (needle.toList <:+: hay.toList)

/-- `self.dml_write_keywords` from `SQLWriteDetector.__init__`. -/
def dml_write_keywords : Finset String :=
  {"INSERT", "UPDATE", "DELETE", "MERGE", "UPSERT", "REPLACE"}

/-- `self.ddl_keywords` from `SQLWriteDetector.__init__`. -/
def ddl_keywords : Finset String :=
  {"CREATE", "ALTER", "DROP", "TRUNCATE", "RENAME"}

/-- `self.dcl_keywords` from `SQLWriteDetector.__init__`. -/
def dcl_keywords : Finset String :=
  {"GRANT", "REVOKE"}

/-- `self.write_keywords = dml_write_keywords | ddl_keywords | dcl_keywords`. -/
def write_keywords : Finset String :=
  dml_write_keywords ∪ ddl_keywords ∪ dcl_keywords

/-- The exact-keyword check shared by `_find_write_operations` and
`_find_write_operations_in_token`:
`if token.ttype in (Keyword, DML, DDL) or token.is_keyword:` followed by
`normalized = token.normalized.upper()` and
`if normalized in self.write_keywords: operations.add(normalized)`.
(The Python tuple membership test compares token types for equality, so
only the exact types `Keyword`, `DML`, `DDL` pass its first disjunct.) -/
def kwExactOps (t : Token) : Finset String :=
  if (t.ttype == some TType.Keyword || t.ttype == some TType.DML ||
      t.ttype == some TType.DDL) || t.is_keyword then
    (if strUpper t.normalized ∈ write_keywords then {strUpper t.normalized} else ∅)
  else ∅

/-- The substring check of `_find_write_operations_in_token`:
`token_str = token.normalized.upper()` and every `write_kw` with
`write_kw in token_str` is added. -/
def substrOps (t : Token) : Finset String :=
  write_keywords.filter (fun kw => strContains (strUpper t.normalized) kw)

mutual

/-- `SQLWriteDetector._find_write_operations_in_token`: exact-keyword check,
substring check, and recursion into children when the token is a
`TokenList`. -/
def findWriteOperationsInToken : Token → Finset String
  | .leaf tt v =>
      kwExactOps (.leaf tt v) ∪ substrOps (.leaf tt v)
  | .group gt cs =>
      kwExactOps (.group gt cs) ∪ substrOps (.group gt cs) ∪
        findWriteOperationsInTokenList cs
termination_by structural t => t

/-- Union of `findWriteOperationsInToken` over a list of tokens. -/
def findWriteOperationsInTokenList : List Token → Finset String
  | [] => ∅
  | t :: ts => findWriteOperationsInToken t ∪ findWriteOperationsInTokenList ts
termination_by structural ts => ts

end

mutual

/-- The contribution of one token of the loop of
`SQLWriteDetector._find_write_operations`: tokens with
`token.is_whitespace or token.ttype in (sqlparse.tokens.Comment,)` are
skipped (`continue`); otherwise the exact-keyword check runs and, when the
token is a `TokenList`, the search recurses into its children. -/
def tokenOps : Token → Finset String
  | .leaf tt v =>
      if (Token.leaf tt v).is_whitespace ||
          (Token.leaf tt v).ttype == some TType.Comment then ∅
      else kwExactOps (.leaf tt v)
  | .group gt cs =>
      if (Token.group gt cs).is_whitespace ||
          (Token.group gt cs).ttype == some TType.Comment then ∅
      else kwExactOps (.group gt cs) ∪ findWriteOperations cs
termination_by structural t => t

/-- `SQLWriteDetector._find_write_operations` on `statement.tokens`. -/
def findWriteOperations : List Token → Finset String
  | [] => ∅
  | t :: ts => tokenOps t ∪ findWriteOperations ts
termination_by structural ts => ts

end

/-- The test of `_has_cte` / `_analyze_cte`:
`token.is_keyword and token.normalized == "WITH"`. -/
def isWithToken (t : Token) : Bool :=
  t.is_keyword && t.normalized == "WITH"

/-- `SQLWriteDetector._has_cte` on `statement.tokens`. -/
def hasCte (stmt : List Token) : Bool :=
  stmt.any isWithToken

/-- The loop of `SQLWriteDetector._analyze_cte` with its `in_cte` flag:
a `WITH` keyword token sets the flag; afterwards any token whose
`_find_write_operations_in_token` result is non-empty returns `True`. -/
def analyzeCteAux : List Token → Bool → Bool
  | [], _ => false
  | t :: ts, in_cte =>
      if isWithToken t then analyzeCteAux ts true
      else if in_cte then
        (if findWriteOperationsInToken t ≠ ∅ then true else analyzeCteAux ts in_cte)
      else analyzeCteAux ts in_cte

/-- `SQLWriteDetector._analyze_cte` (the flag starts as `False`). -/
def analyzeCte (stmt : List Token) : Bool :=
  analyzeCteAux stmt false

/-- The dictionary returned by `SQLWriteDetector.analyze_query`. -/
structure AnalysisResult where
  contains_write : Bool
  write_operations : Finset String
  has_cte_write : Bool
  deriving DecidableEq

/-- One iteration of the statement loop of `analyze_query`: the CTE check
(possibly adding `"CTE_WRITE"` and setting `has_cte_write`) followed by
`found_operations.update(self._find_write_operations(statement))`. -/
def analyzeStep (acc : Finset String × Bool) (stmt : List Token) :
    Finset String × Bool :=
  let acc1 := if hasCte stmt && analyzeCte stmt then
                (acc.1 ∪ {"CTE_WRITE"}, true)
              else acc
  (acc1.1 ∪ findWriteOperations stmt, acc1.2)

/-- `SQLWriteDetector.analyze_query`, as a function of the statement list
produced by `sqlparse.parse`: the empty parse returns the all-false result,
otherwise the statements are folded through `analyzeStep` and
`contains_write = bool(found_operations) or has_cte_write`. -/
def analyzeQuery (parsed : List (List Token)) : AnalysisResult :=
  match parsed with
  | [] => ⟨false, ∅, false⟩
  | _ :: _ =>
    let r := parsed.foldl analyzeStep (∅, false)
    ⟨decide (r.1 ≠ ∅) || r.2, r.1, r.2⟩

/-- The per-statement CTE verdict of the loop of `analyze_query`:
whether this statement triggers `has_cte_write = True`. -/
def stmtCteFlag (stmt : List Token) : Bool :=
  hasCte stmt && analyzeCte stmt

/-- The contribution of one statement to `found_operations` in the loop of
`analyze_query`: the `"CTE_WRITE"` marker when the CTE branch fires, plus
the statement's own `_find_write_operations` result. -/
def stmtOps (stmt : List Token) : Finset String :=
  (if stmtCteFlag stmt then {"CTE_WRITE"} else ∅) ∪ findWriteOperations stmt

/-- Union of the per-statement operation sets over a parse result. -/
def allOps : List (List Token) → Finset String
  | [] => ∅
  | s :: ps => stmtOps s ∪ allOps ps

/-- Disjunction of the per-statement CTE verdicts over a parse result. -/
def anyCte (parsed : List (List Token)) : Bool :=
  parsed.any stmtCteFlag

/-- The keyword test of `_find_write_operations` and
`_find_write_operations_in_token`:
`token.ttype in (Keyword, DML, DDL) or token.is_keyword`. -/
def keywordClassified (t : Token) : Bool :=
  (t.ttype == some TType.Keyword || t.ttype == some TType.DML ||
    t.ttype == some TType.DDL) || t.is_keyword

mutual

/-- A token that consists of comment or whitespace material only: a leaf
whose type is a comment type or a whitespace type, or a grouped token
(carrying either `sqlparse`'s actual token type `None` or the bare comment
type) all of whose children are of this shape.  This is the shape of the
tokens that comments and whitespace take in a parsed statement. -/
def commentOnly : Token → Bool
  | .leaf tt _ =>
      (tt == TType.Comment || tt == TType.CommentSingle ||
        tt == TType.CommentMultiline) || tt.inWhitespace
  | .group gt cs =>
      (gt == none || gt == some TType.Comment) && commentOnlyList cs
termination_by structural t => t

/-- `commentOnly` holds of every token of the list. -/
def commentOnlyList : List Token → Bool
  | [] => true
  | t :: ts => commentOnly t && commentOnlyList ts
termination_by structural ts => ts

end

mutual

/-- Every grouped token in the tree carries the token type `None` — which
is how `sqlparse`'s `TokenList.__init__` always constructs groups. -/
def plainGroups : Token → Bool
  | .leaf _ _ => true
  | .group gt cs => gt == none && plainGroupsList cs
termination_by structural t => t

/-- `plainGroups` holds of every token of the list. -/
def plainGroupsList : List Token → Bool
  | [] => true
  | t :: ts => plainGroups t && plainGroupsList ts
termination_by structural ts => ts

end

/-- Occurrence of a token anywhere in a statement's token tree: either as
one of the statement's immediate tokens, or nested (to any depth) inside
the children of a grouped token. -/
inductive DeepIn : Token → List Token → Prop where
  | here {t : Token} {ts : List Token} : t ∈ ts → DeepIn t ts
  | inside {t : Token} {gt : Option TType} {cs ts : List Token} :
      Token.group gt cs ∈ ts → DeepIn t cs → DeepIn t ts

/-- A whitespace token, as `sqlparse` lexes the spaces of a query. -/
def wsTok : Token := .leaf .Whitespace " "

/-- The grouped CTE definition `c AS (SELECT 1)` — the `WITH`-clause of a
statement whose CTE body is a read-only `SELECT`. -/
def cteDefGroup : Token :=
  .group none [.leaf .Name "c", wsTok, .leaf .Keyword "AS", wsTok,
    .group none [.leaf .Punctuation "(", .leaf .DML "SELECT", wsTok,
      .leaf .Literal "1", .leaf .Punctuation ")"]]

/-- The token tree of `"WITH c AS (SELECT 1) DELETE FROM t"`: the `WITH`
keyword (token type `Keyword.CTE`), the grouped CTE definition
`c AS (SELECT 1)` (whose body is a read-only `SELECT`), and then the
statement's main query `DELETE FROM t`, whose `DELETE` keyword is an
immediate token of the statement — strictly outside the WITH-clause
body. -/
def stmtCteDelete : List Token :=
  [.leaf .CTE "WITH", wsTok, cteDefGroup,
   wsTok, .leaf .DML "DELETE", wsTok, .leaf .Keyword "FROM", wsTok,
   .group none [.leaf .Name "t"]]

/-- The grouped CTE definition `update_count AS (SELECT 1)`: the identifier
`update_count` contains `"UPDATE"` as a substring, but no token in the
group is a write-keyword token. -/
def updateCountGroup : Token :=
  .group none [.leaf .Name "update_count", wsTok, .leaf .Keyword "AS", wsTok,
    .group none [.leaf .Punctuation "(", .leaf .DML "SELECT", wsTok,
      .leaf .Literal "1", .leaf .Punctuation ")"]]

/-- The token tree of `"WITH update_count AS (SELECT 1) SELECT 2"`: no
token anywhere in the statement is a write-keyword token, but the
normalized text of `update_count AS (SELECT 1)` contains `"UPDATE"` as a
substring. -/
def stmtCteUpdateCount : List Token :=
  [.leaf .CTE "WITH", wsTok, updateCountGroup,
   wsTok, .leaf .DML "SELECT", wsTok, .leaf .Literal "2"]

/-- The token tree of `"SELECT 1"`. -/
def stmtSelect1 : List Token :=
  [.leaf .DML "SELECT", wsTok, .leaf .Literal "1"]

/-- The token tree of `"UPDATE t SET x=1"`. -/
def stmtUpdate : List Token :=
  [.leaf .DML "UPDATE", wsTok, .group none [.leaf .Name "t"], wsTok,
   .leaf .Keyword "SET", wsTok,
   .group none [.leaf .Name "x", .leaf .Punctuation "=", .leaf .Literal "1"]]

/-- The token tree of a statement consisting of one line comment
(`sqlparse` wraps the comment tokens in a grouped `Comment` token whose
token type is `None`). -/
def stmtCommentOnly : List Token :=
  [.group none [.leaf .CommentSingle "-- DELETE FROM t"]]

/-- Innermost parenthesis group of the deeply nested example: it holds a
`DELETE` keyword token. -/
def deepG3 : Token :=
  .group none [.leaf .Punctuation "(", .leaf .DML "DELETE", .leaf .Punctuation ")"]

/-- Middle parenthesis group of the deeply nested example. -/
def deepG2 : Token :=
  .group none [.leaf .Punctuation "(", deepG3, .leaf .Punctuation ")"]

/-- Outermost parenthesis group of the deeply nested example. -/
def deepG1 : Token :=
  .group none [.leaf .Punctuation "(", deepG2, .leaf .Punctuation ")"]

/-- A statement with a write keyword nested three containers deep: the
innermost parenthesis group holds a `DELETE` keyword token. -/
def stmtDeepDelete : List Token :=
  [.leaf .DML "SELECT", wsTok, deepG1]

/-! ### Basic lemmas -/

theorem kwExactOps_subset (t : Token) : kwExactOps t ⊆ write_keywords := by
  unfold kwExactOps
  split_ifs with h1 h2
  · intro x hx
    rw [Finset.mem_singleton] at hx
    rw [hx]
    exact h2
  · exact Finset.empty_subset _
  · exact Finset.empty_subset _

mutual

theorem tokenOps_subset : (t : Token) → tokenOps t ⊆ write_keywords
  | .leaf tt v => by
      unfold tokenOps
      split_ifs
      · exact Finset.empty_subset _
      · exact kwExactOps_subset _
  | .group gt cs => by
      unfold tokenOps
      split_ifs
      · exact Finset.empty_subset _
      · exact Finset.union_subset (kwExactOps_subset _)
          (findWriteOperations_subset cs)
termination_by structural t => t

theorem findWriteOperations_subset :
    (ts : List Token) → findWriteOperations ts ⊆ write_keywords
  | [] => by
      unfold findWriteOperations
      exact Finset.empty_subset _
  | t :: ts => by
      unfold findWriteOperations
      exact Finset.union_subset (tokenOps_subset t)
        (findWriteOperations_subset ts)
termination_by structural ts => ts

end

theorem analyzeStep_eq (acc : Finset String × Bool) (stmt : List Token) :
    analyzeStep acc stmt = (acc.1 ∪ stmtOps stmt, acc.2 || stmtCteFlag stmt) := by
  unfold analyzeStep stmtOps stmtCteFlag
  by_cases h : hasCte stmt && analyzeCte stmt
  · simp [h, Finset.union_assoc]
  · simp [h]

theorem foldl_analyzeStep :
    (parsed : List (List Token)) → (acc : Finset String × Bool) →
      parsed.foldl analyzeStep acc = (acc.1 ∪ allOps parsed, acc.2 || anyCte parsed)
  | [], acc => by
      simp [allOps, anyCte]
  | s :: ps, acc => by
      rw [List.foldl_cons, analyzeStep_eq, foldl_analyzeStep ps]
      simp [allOps, anyCte, Finset.union_assoc, Bool.or_assoc]

theorem analyzeQuery_eq (parsed : List (List Token)) :
    analyzeQuery parsed =
      ⟨decide (allOps parsed ≠ ∅) || anyCte parsed, allOps parsed, anyCte parsed⟩ := by
  match parsed with
  | [] => simp [analyzeQuery, allOps, anyCte]
  | p :: ps =>
      show (⟨_, _, _⟩ : AnalysisResult) = _
      rw [foldl_analyzeStep]
      simp

theorem mem_allOps {x : String} :
    (parsed : List (List Token)) →
      (x ∈ allOps parsed ↔ ∃ s ∈ parsed, x ∈ stmtOps s)
  | [] => by simp [allOps]
  | s :: ps => by
      simp [allOps, Finset.mem_union, mem_allOps ps]

theorem analyzeCteAux_true_iff :
    (ts : List Token) →
      (analyzeCteAux ts true = true ↔
        ∃ t ∈ ts, isWithToken t = false ∧ findWriteOperationsInToken t ≠ ∅)
  | [] => by simp [analyzeCteAux]
  | t :: ts => by
      unfold analyzeCteAux
      by_cases hw : isWithToken t
      · rw [if_pos hw, analyzeCteAux_true_iff ts]
        constructor
        · rintro ⟨x, hx, h⟩
          exact ⟨x, List.mem_cons_of_mem t hx, h⟩
        · rintro ⟨x, hx, hxw, hxo⟩
          rcases List.mem_cons.mp hx with rfl | hx'
          · rw [hw] at hxw
            cases hxw
          · exact ⟨x, hx', hxw, hxo⟩
      · rw [if_neg hw, if_pos rfl]
        have hw' : isWithToken t = false := by
          revert hw
          cases isWithToken t <;> simp
        by_cases ho : findWriteOperationsInToken t ≠ ∅
        · rw [if_pos ho]
          constructor
          · intro _
            exact ⟨t, List.mem_cons_self t ts, hw', ho⟩
          · intro _
            rfl
        · rw [if_neg ho, analyzeCteAux_true_iff ts]
          constructor
          · rintro ⟨x, hx, h⟩
            exact ⟨x, List.mem_cons_of_mem t hx, h⟩
          · rintro ⟨x, hx, hxw, hxo⟩
            rcases List.mem_cons.mp hx with rfl | hx'
            · exact absurd hxo ho
            · exact ⟨x, hx', hxw, hxo⟩

theorem analyzeCteAux_false_iff :
    (ts : List Token) →
      (analyzeCteAux ts false = true ↔
        ∃ pre w post, ts = pre ++ w :: post ∧ isWithToken w = true ∧
          ∃ t ∈ post, isWithToken t = false ∧ findWriteOperationsInToken t ≠ ∅)
  | [] => by
      constructor
      · intro h
        exact absurd h (by simp [analyzeCteAux])
      · rintro ⟨pre, w, post, habs, -⟩
        exact absurd habs (by simp)
  | t :: ts => by
      unfold analyzeCteAux
      by_cases hw : isWithToken t
      · rw [if_pos hw, analyzeCteAux_true_iff ts]
        constructor
        · rintro ⟨x, hx, hxw, hxo⟩
          exact ⟨[], t, ts, rfl, hw, x, hx, hxw, hxo⟩
        · rintro ⟨pre, w, post, heq, hww, x, hx, hxw, hxo⟩
          cases pre with
          | nil =>
              simp only [List.nil_append, List.cons.injEq] at heq
              exact ⟨x, heq.2 ▸ hx, hxw, hxo⟩
          | cons p pre' =>
              simp only [List.cons_append, List.cons.injEq] at heq
              refine ⟨x, ?_, hxw, hxo⟩
              rw [heq.2]
              exact List.mem_append_right _ (List.mem_cons_of_mem _ hx)
      · rw [if_neg hw, if_neg (by simp), analyzeCteAux_false_iff ts]
        constructor
        · rintro ⟨pre, w, post, heq, hww, hx⟩
          exact ⟨t :: pre, w, post, by rw [heq, List.cons_append], hww, hx⟩
        · rintro ⟨pre, w, post, heq, hww, x, hx, hxw, hxo⟩
          cases pre with
          | nil =>
              simp only [List.nil_append, List.cons.injEq] at heq
              rw [heq.1] at hw
              exact absurd hww hw
          | cons p pre' =>
              simp only [List.cons_append, List.cons.injEq] at heq
              exact ⟨pre', w, post, heq.2, hww, x, hx, hxw, hxo⟩

theorem hasCte_of_analyzeCte {stmt : List Token} (h : analyzeCte stmt = true) :
    hasCte stmt = true := by
  unfold analyzeCte at h
  rcases (analyzeCteAux_false_iff stmt).mp h with ⟨pre, w, post, heq, hww, -⟩
  unfold hasCte
  rw [List.any_eq_true]
  refine ⟨w, ?_, hww⟩
  rw [heq]
  exact List.mem_append_right _ (List.mem_cons_self _ _)

theorem stmtCteFlag_eq_analyzeCte (stmt : List Token) :
    stmtCteFlag stmt = analyzeCte stmt := by
  unfold stmtCteFlag
  cases h : analyzeCte stmt with
  | true => rw [hasCte_of_analyzeCte h]; rfl
  | false => simp

theorem mem_substrOps {t : Token} {kw : String} (hk : kw ∈ write_keywords)
    (hs : kw.toList <:+: (strUpper t.normalized).toList) : kw ∈ substrOps t := by
  unfold substrOps
  rw [Finset.mem_filter]
  refine ⟨hk, ?_⟩
  unfold strContains
  exact decide_eq_true hs

theorem substrOps_subset (t : Token) :
    substrOps t ⊆ findWriteOperationsInToken t := by
  cases t with
  | leaf tt v =>
      unfold findWriteOperationsInToken
      intro x hx
      exact Finset.mem_union_right _ hx
  | group gt cs =>
      unfold findWriteOperationsInToken
      intro x hx
      exact Finset.mem_union_left _ (Finset.mem_union_right _ hx)

theorem strUpper_of_mem_write_keywords : ∀ s ∈ write_keywords, strUpper s = s := by
  decide

theorem is_keyword_of_keywordClassified {t : Token} (h : keywordClassified t = true) :
    t.is_keyword = true := by
  unfold keywordClassified at h
  rw [Bool.or_eq_true, Bool.or_eq_true, Bool.or_eq_true] at h
  rcases h with ((h | h) | h) | h
  · simp [Token.is_keyword, eq_of_beq h, TType.inKeyword]
  · simp [Token.is_keyword, eq_of_beq h, TType.inKeyword]
  · simp [Token.is_keyword, eq_of_beq h, TType.inKeyword]
  · exact h

theorem not_skipped_of_keywordClassified {t : Token} (h : keywordClassified t = true) :
    (t.is_whitespace || t.ttype == some TType.Comment) = false := by
  have hk := is_keyword_of_keywordClassified h
  unfold Token.is_keyword at hk
  unfold Token.is_whitespace
  cases ht : t.ttype with
  | none => rw [ht] at hk; cases hk
  | some tt =>
      rw [ht] at hk
      cases tt <;> revert hk <;> decide

theorem mem_kwExactOps {t : Token} (h : keywordClassified t = true)
    (hm : t.normalized ∈ write_keywords) : t.normalized ∈ kwExactOps t := by
  unfold keywordClassified at h
  unfold kwExactOps
  rw [if_pos h]
  rw [strUpper_of_mem_write_keywords _ hm, if_pos hm]
  exact Finset.mem_singleton_self _

theorem commentOnly_not_keyword {t : Token} (h : commentOnly t = true) :
    t.is_keyword = false := by
  cases t with
  | leaf tt v =>
      unfold commentOnly at h
      cases tt <;>
        simp_all [Token.is_keyword, Token.ttype, TType.inKeyword, TType.inWhitespace]
  | group gt cs =>
      unfold commentOnly at h
      rw [Bool.and_eq_true] at h
      have h1 := h.1
      rw [Bool.or_eq_true] at h1
      rcases h1 with h1 | h1
      · simp [Token.is_keyword, Token.ttype, eq_of_beq h1]
      · simp [Token.is_keyword, Token.ttype, eq_of_beq h1, TType.inKeyword]

mutual

theorem commentOnly_tokenOps :
    (t : Token) → commentOnly t = true → tokenOps t = ∅
  | .leaf tt v, h => by
      unfold commentOnly at h
      cases tt <;>
        simp_all [tokenOps, kwExactOps, Token.is_whitespace, Token.is_keyword,
          Token.ttype, TType.inWhitespace, TType.inKeyword]
  | .group gt cs, h => by
      unfold commentOnly at h
      rw [Bool.and_eq_true] at h
      have hcs := commentOnly_findWriteOperations cs h.2
      have h1 := h.1
      rw [Bool.or_eq_true] at h1
      rcases h1 with h1 | h1
      · have hg := eq_of_beq h1
        subst hg
        unfold tokenOps
        rw [if_neg (by simp [Token.is_whitespace, Token.ttype])]
        rw [hcs]
        simp [kwExactOps, Token.is_keyword, Token.ttype]
      · have hg := eq_of_beq h1
        subst hg
        unfold tokenOps
        rw [if_pos (by simp [Token.ttype])]
termination_by structural t => t

theorem commentOnly_findWriteOperations :
    (ts : List Token) → commentOnlyList ts = true → findWriteOperations ts = ∅
  | [], _ => rfl
  | t :: ts, h => by
      unfold commentOnlyList at h
      rw [Bool.and_eq_true] at h
      unfold findWriteOperations
      rw [commentOnly_tokenOps t h.1, commentOnly_findWriteOperations ts h.2]
      simp
termination_by structural ts => ts

end

theorem findWriteOperations_append :
    (l1 l2 : List Token) →
      findWriteOperations (l1 ++ l2) = findWriteOperations l1 ∪ findWriteOperations l2
  | [], l2 => by simp [findWriteOperations]
  | t :: l1, l2 => by
      rw [List.cons_append]
      show tokenOps t ∪ findWriteOperations (l1 ++ l2) =
        tokenOps t ∪ findWriteOperations l1 ∪ findWriteOperations l2
      rw [findWriteOperations_append l1 l2, Finset.union_assoc]

theorem tokenOps_subset_findWriteOperations {t : Token} {ts : List Token}
    (h : t ∈ ts) : tokenOps t ⊆ findWriteOperations ts := by
  induction ts with
  | nil => cases h
  | cons s ts ih =>
      unfold findWriteOperations
      rcases List.mem_cons.mp h with rfl | h'
      · intro x hx
        exact Finset.mem_union_left _ hx
      · intro x hx
        exact Finset.mem_union_right _ (ih h' hx)

theorem plainGroups_of_mem {t : Token} {ts : List Token} (hm : t ∈ ts)
    (h : plainGroupsList ts = true) : plainGroups t = true := by
  induction ts with
  | nil => cases hm
  | cons s ts ih =>
      unfold plainGroupsList at h
      rw [Bool.and_eq_true] at h
      rcases List.mem_cons.mp hm with rfl | h'
      · exact h.1
      · exact ih h' h.2

theorem commentOnly_of_mem {t : Token} {ts : List Token} (hm : t ∈ ts)
    (h : commentOnlyList ts = true) : commentOnly t = true := by
  induction ts with
  | nil => cases hm
  | cons s ts ih =>
      unfold commentOnlyList at h
      rw [Bool.and_eq_true] at h
      rcases List.mem_cons.mp hm with rfl | h'
      · exact h.1
      · exact ih h' h.2

theorem hasCte_eq_false_of_commentOnly {stmt : List Token}
    (h : commentOnlyList stmt = true) : hasCte stmt = false := by
  unfold hasCte
  rw [List.any_eq_false]
  intro t ht
  unfold isWithToken
  rw [commentOnly_not_keyword (commentOnly_of_mem ht h)]
  simp

theorem mem_tokenOps {t : Token} (hk : keywordClassified t = true)
    (hw : t.normalized ∈ write_keywords) : t.normalized ∈ tokenOps t := by
  have hns := not_skipped_of_keywordClassified hk
  have hke := mem_kwExactOps hk hw
  cases t with
  | leaf tt v =>
      unfold tokenOps
      rw [if_neg (by rw [hns]; simp)]
      exact hke
  | group gt cs =>
      unfold tokenOps
      rw [if_neg (by rw [hns]; simp)]
      exact Finset.mem_union_left _ hke

theorem mem_findWriteOperations_of_deepIn {t : Token} {ts : List Token}
    (hd : DeepIn t ts) (hk : keywordClassified t = true)
    (hw : t.normalized ∈ write_keywords) :
    plainGroupsList ts = true → t.normalized ∈ findWriteOperations ts := by
  induction hd with
  | here hm =>
      intro hp
      exact tokenOps_subset_findWriteOperations hm (mem_tokenOps hk hw)
  | inside hm hd ih =>
      intro hp
      have hg := plainGroups_of_mem hm hp
      unfold plainGroups at hg
      rw [Bool.and_eq_true] at hg
      have hgt := eq_of_beq hg.1
      subst hgt
      refine tokenOps_subset_findWriteOperations hm ?_
      unfold tokenOps
      rw [if_neg (by simp [Token.is_whitespace, Token.ttype])]
      exact Finset.mem_union_right _ (ih hg.2)

/-! ### Claims -/

/-- C1, counterexample.  The claim states that `has_cte_write` is true only
when a write-keyword occurrence lies strictly inside the body of a
WITH-clause, and in particular that `"WITH c AS (SELECT 1) DELETE FROM t"`
— whose CTE definition `c AS (SELECT 1)` contains no write-keyword
occurrence at all (second conjunct), and whose `DELETE` is an immediate
top-level token of the statement's main query — does not by itself make
`has_cte_write` true.  The code returns `has_cte_write = true` on exactly
this input, because `_analyze_cte` scans every token after the `WITH`
keyword, main query included. -/
theorem claim_C1_counterexample :
    (analyzeQuery [stmtCteDelete]).has_cte_write = true ∧
      findWriteOperationsInToken cteDefGroup = ∅ := by
  decide

/-- C1, amended: `has_cte_write` is true exactly when some statement of the
parse has a top-level `WITH` keyword token followed — anywhere later in the
statement's top-level token sequence, inside the CTE definition or in the
main query alike — by a (non-`WITH`) token in which
`_find_write_operations_in_token` finds a write-keyword occurrence (exact
keyword match or substring of the normalized text). -/
theorem claim_C1_amended (parsed : List (List Token)) :
    (analyzeQuery parsed).has_cte_write = true ↔
      ∃ stmt ∈ parsed, ∃ pre w post, stmt = pre ++ w :: post ∧
        isWithToken w = true ∧
        ∃ t ∈ post, isWithToken t = false ∧ findWriteOperationsInToken t ≠ ∅ := by
  rw [analyzeQuery_eq]
  show anyCte parsed = true ↔ _
  unfold anyCte
  rw [List.any_eq_true]
  constructor
  · rintro ⟨stmt, hs, hflag⟩
    rw [stmtCteFlag_eq_analyzeCte] at hflag
    unfold analyzeCte at hflag
    exact ⟨stmt, hs, (analyzeCteAux_false_iff stmt).mp hflag⟩
  · rintro ⟨stmt, hs, hdec⟩
    refine ⟨stmt, hs, ?_⟩
    rw [stmtCteFlag_eq_analyzeCte]
    unfold analyzeCte
    exact (analyzeCteAux_false_iff stmt).mpr hdec

/-- C1, witness for the amended claim at the concrete input
`"WITH c AS (SELECT 1) DELETE FROM t"`. -/
theorem claim_C1_witness :
    ∃ stmt ∈ [stmtCteDelete], ∃ pre w post, stmt = pre ++ w :: post ∧
      isWithToken w = true ∧
      ∃ t ∈ post, isWithToken t = false ∧ findWriteOperationsInToken t ≠ ∅ :=
  (claim_C1_amended [stmtCteDelete]).mp (by decide)

/-- C2: `analyze_query` is a total function of the parsed statement list —
on every input it terminates normally and returns an analysis result (a
dictionary with the three fields); the embedding of its body contains no
failure path. -/
theorem claim_C2_total (parsed : List (List Token)) :
    ∃ cw : Bool, ∃ ops : Finset String, ∃ cte : Bool,
      analyzeQuery parsed = ⟨cw, ops, cte⟩ :=
  ⟨_, _, _, rfl⟩

/-- C3: the `write_operations` set of every analysis result is contained in
the thirteen-element write keyword set together with the literal marker
`"CTE_WRITE"`. -/
theorem claim_C3_subset (parsed : List (List Token)) :
    (analyzeQuery parsed).write_operations ⊆
      ({"INSERT", "UPDATE", "DELETE", "MERGE", "UPSERT", "REPLACE", "CREATE",
        "ALTER", "DROP", "TRUNCATE", "RENAME", "GRANT", "REVOKE",
        "CTE_WRITE"} : Finset String) := by
  rw [analyzeQuery_eq]
  show allOps parsed ⊆ _
  have hws : write_keywords ⊆
      ({"INSERT", "UPDATE", "DELETE", "MERGE", "UPSERT", "REPLACE", "CREATE",
        "ALTER", "DROP", "TRUNCATE", "RENAME", "GRANT", "REVOKE",
        "CTE_WRITE"} : Finset String) := by decide
  intro x hx
  rw [mem_allOps] at hx
  obtain ⟨s, hs, hxs⟩ := hx
  unfold stmtOps at hxs
  rw [Finset.mem_union] at hxs
  rcases hxs with hxs | hxs
  · by_cases hf : stmtCteFlag s
    · rw [if_pos hf, Finset.mem_singleton] at hxs
      subst hxs
      decide
    · rw [if_neg hf] at hxs
      exact absurd hxs (Finset.not_mem_empty x)
  · exact hws (findWriteOperations_subset s hxs)

/-- C3, witness at the concrete input `"UPDATE t SET x=1"`. -/
theorem claim_C3_witness :
    "UPDATE" ∈
      ({"INSERT", "UPDATE", "DELETE", "MERGE", "UPSERT", "REPLACE", "CREATE",
        "ALTER", "DROP", "TRUNCATE", "RENAME", "GRANT", "REVOKE",
        "CTE_WRITE"} : Finset String) :=
  claim_C3_subset [stmtUpdate] (by decide)

/-- C4: `contains_write` is true iff the `write_operations` set is
non-empty or `has_cte_write` is true; and whenever `has_cte_write` is true
the marker `"CTE_WRITE"` is a member of `write_operations`. -/
theorem claim_C4_invariant (parsed : List (List Token)) :
    ((analyzeQuery parsed).contains_write = true ↔
      ((analyzeQuery parsed).write_operations ≠ ∅ ∨
        (analyzeQuery parsed).has_cte_write = true)) ∧
    ((analyzeQuery parsed).has_cte_write = true →
      "CTE_WRITE" ∈ (analyzeQuery parsed).write_operations) := by
  rw [analyzeQuery_eq]
  constructor
  · show (decide (allOps parsed ≠ ∅) || anyCte parsed) = true ↔ _
    rw [Bool.or_eq_true, decide_eq_true_eq]
  · show anyCte parsed = true → "CTE_WRITE" ∈ allOps parsed
    intro h
    unfold anyCte at h
    rw [List.any_eq_true] at h
    obtain ⟨s, hs, hflag⟩ := h
    rw [mem_allOps]
    refine ⟨s, hs, ?_⟩
    unfold stmtOps
    rw [if_pos hflag]
    exact Finset.mem_union_left _ (Finset.mem_singleton_self _)

/-- C4, witness at the concrete input
`"WITH update_count AS (SELECT 1) SELECT 2"`. -/
theorem claim_C4_witness :
    "CTE_WRITE" ∈ (analyzeQuery [stmtCteUpdateCount]).write_operations :=
  (claim_C4_invariant [stmtCteUpdateCount]).2 (by decide)

/-- C5: in the full recursive write-operation search
(`_find_write_operations`), every token matching the skip guard — pure
whitespace, or token type exactly `Comment`, container or not — contributes
nothing and is not recursed into; every comment-or-whitespace token (in any
of the shapes comments take in a parsed statement, including a comment
leaf of any text and a grouped comment token) contributes the empty set;
hence inserting such a token anywhere at the top level of a statement
leaves the search's result unchanged, so a write keyword appearing only
inside a comment contributes nothing to `write_operations`. -/
theorem claim_C5_comments (t : Token) :
    ((t.is_whitespace || t.ttype == some TType.Comment) = true → tokenOps t = ∅) ∧
    (commentOnly t = true → tokenOps t = ∅) ∧
    (∀ pre post, commentOnly t = true →
      findWriteOperations (pre ++ t :: post) = findWriteOperations (pre ++ post)) := by
  refine ⟨?_, commentOnly_tokenOps t, ?_⟩
  · intro h
    cases t with
    | leaf tt v =>
        unfold tokenOps
        rw [if_pos h]
    | group gt cs =>
        unfold tokenOps
        rw [if_pos h]
  · intro pre post hc
    rw [findWriteOperations_append, findWriteOperations_append]
    show findWriteOperations pre ∪ (tokenOps t ∪ findWriteOperations post) = _
    rw [commentOnly_tokenOps t hc, Finset.empty_union]

/-- C5, witness: a bare-`Comment` token whose text is a `DROP` statement,
and a grouped line comment whose text is a `DELETE` statement, both
contribute the empty set to the write-operation search. -/
theorem claim_C5_witness :
    tokenOps (Token.leaf TType.Comment "/* DROP TABLE t */") = ∅ ∧
      tokenOps (Token.group none [Token.leaf TType.CommentSingle "-- DELETE FROM t"]) = ∅ :=
  ⟨(claim_C5_comments (Token.leaf TType.Comment "/* DROP TABLE t */")).1 (by decide),
   (claim_C5_comments
      (Token.group none [Token.leaf TType.CommentSingle "-- DELETE FROM t"])).2.1
     (by decide)⟩

/-- C6: in the CTE-region scan, a write keyword occurring merely as a
substring of the normalized upper-cased text of any (non-`WITH`) token
after a top-level `WITH` keyword makes `has_cte_write` true. -/
theorem claim_C6_substring (parsed : List (List Token)) (stmt pre post : List Token)
    (w t : Token) (kw : String)
    (hmem : stmt ∈ parsed) (hsplit : stmt = pre ++ w :: post)
    (hwith : isWithToken w = true) (ht : t ∈ post) (htw : isWithToken t = false)
    (hkw : kw ∈ write_keywords)
    (hsub : kw.toList <:+: (strUpper t.normalized).toList) :
    (analyzeQuery parsed).has_cte_write = true := by
  rw [analyzeQuery_eq]
  show anyCte parsed = true
  unfold anyCte
  rw [List.any_eq_true]
  refine ⟨stmt, hmem, ?_⟩
  rw [stmtCteFlag_eq_analyzeCte]
  unfold analyzeCte
  rw [analyzeCteAux_false_iff stmt]
  refine ⟨pre, w, post, hsplit, hwith, t, ht, htw, ?_⟩
  exact Finset.ne_empty_of_mem (substrOps_subset t (mem_substrOps hkw hsub))

/-- C6, witness at the concrete input
`"WITH update_count AS (SELECT 1) SELECT 2"`: the identifier
`update_count` contains `"UPDATE"` as a substring, so `has_cte_write`
is true. -/
theorem claim_C6_witness :
    (analyzeQuery [stmtCteUpdateCount]).has_cte_write = true :=
  claim_C6_substring [stmtCteUpdateCount] stmtCteUpdateCount []
    [wsTok, updateCountGroup, wsTok, Token.leaf TType.DML "SELECT", wsTok,
      Token.leaf TType.Literal "2"]
    (Token.leaf TType.CTE "WITH") updateCountGroup "UPDATE"
    (List.mem_singleton_self _) rfl (by decide)
    (List.mem_cons_of_mem _ (List.mem_cons_self _ _)) (by decide) (by decide)
    (by decide)

/-- C7: when parsing yields no statements, `analyze_query` returns exactly
`contains_write = false`, an empty `write_operations` set and
`has_cte_write = false`; and every parse whose statements consist solely of
comment and whitespace tokens yields the same all-false, empty-set
result. -/
theorem claim_C7_no_statements :
    analyzeQuery [] = ⟨false, ∅, false⟩ ∧
    ∀ parsed, (∀ stmt ∈ parsed, commentOnlyList stmt = true) →
      analyzeQuery parsed = ⟨false, ∅, false⟩ := by
  refine ⟨rfl, ?_⟩
  intro parsed h
  rw [analyzeQuery_eq]
  have hflag : ∀ s ∈ parsed, stmtCteFlag s = false := by
    intro s hs
    unfold stmtCteFlag
    rw [hasCte_eq_false_of_commentOnly (h s hs)]
    rfl
  have hops : allOps parsed = ∅ := by
    induction parsed with
    | nil => rfl
    | cons s ps ih =>
        show stmtOps s ∪ allOps ps = ∅
        rw [ih (fun stmt hs => h stmt (List.mem_cons_of_mem _ hs))
            (fun stmt hs => hflag stmt (List.mem_cons_of_mem _ hs))]
        unfold stmtOps
        rw [commentOnly_findWriteOperations s (h s (List.mem_cons_self _ _)),
          hflag s (List.mem_cons_self _ _)]
        simp
  have hcte : anyCte parsed = false := by
    unfold anyCte
    rw [List.any_eq_false]
    intro s hs
    rw [hflag s hs]
    simp
  rw [hops, hcte]
  decide

/-- C7, witness at a whitespace-only statement and a comment-only
statement. -/
theorem claim_C7_witness :
    analyzeQuery [[wsTok], stmtCommentOnly] = ⟨false, ∅, false⟩ :=
  claim_C7_no_statements.2 [[wsTok], stmtCommentOnly] (by decide)

/-- C8: a keyword-classified token whose normalized text equals a write
keyword is added to `write_operations` at any nesting depth: whenever it
occurs anywhere in a statement's token tree (the statement's grouped tokens
carrying, as `sqlparse` always constructs them, the token type `None`), the
keyword is in the statement's `_find_write_operations` result and in the
analysis result of any parse containing the statement. -/
theorem claim_C8_deep (parsed : List (List Token)) (stmt : List Token) (t : Token)
    (hs : stmt ∈ parsed) (hd : DeepIn t stmt) (hp : plainGroupsList stmt = true)
    (hk : keywordClassified t = true) (hw : t.normalized ∈ write_keywords) :
    t.normalized ∈ findWriteOperations stmt ∧
      t.normalized ∈ (analyzeQuery parsed).write_operations := by
  have h1 := mem_findWriteOperations_of_deepIn hd hk hw hp
  refine ⟨h1, ?_⟩
  rw [analyzeQuery_eq]
  show _ ∈ allOps parsed
  rw [mem_allOps]
  refine ⟨stmt, hs, ?_⟩
  unfold stmtOps
  exact Finset.mem_union_right _ h1

/-- C8, witness: a `DELETE` keyword token three containers deep is
detected. -/
theorem claim_C8_witness :
    "DELETE" ∈ findWriteOperations stmtDeepDelete ∧
      "DELETE" ∈ (analyzeQuery [stmtDeepDelete]).write_operations := by
  refine claim_C8_deep [stmtDeepDelete] stmtDeepDelete (Token.leaf TType.DML "DELETE")
    (List.mem_singleton_self _) ?_ (by decide) (by decide) (by decide)
  exact DeepIn.inside
    (List.mem_cons_of_mem _ (List.mem_cons_of_mem _ (List.mem_cons_self _ _)))
    (DeepIn.inside (List.mem_cons_of_mem _ (List.mem_cons_self _ _))
      (DeepIn.inside (List.mem_cons_of_mem _ (List.mem_cons_self _ _))
        (DeepIn.here (List.mem_cons_of_mem _ (List.mem_cons_self _ _)))))

/-- C9: the analysis of a multi-statement parse is the merge of the
per-statement analyses — `write_operations` is the union of the
single-statement operation sets and `has_cte_write` the disjunction of the
single-statement flags; the whole analysis result is invariant under
permutation of the statements; and the two-statement example
`"SELECT 1; UPDATE t SET x=1"` yields `contains_write = true` with
`write_operations = {"UPDATE"}`. -/
theorem claim_C9_merge :
    (∀ parsed : List (List Token),
      (analyzeQuery parsed).write_operations =
        parsed.foldr (fun s acc => (analyzeQuery [s]).write_operations ∪ acc) ∅ ∧
      (analyzeQuery parsed).has_cte_write =
        parsed.any (fun s => (analyzeQuery [s]).has_cte_write)) ∧
    (∀ l1 l2 : List (List Token), l1.Perm l2 → analyzeQuery l1 = analyzeQuery l2) ∧
    analyzeQuery [stmtSelect1, stmtUpdate] = ⟨true, {"UPDATE"}, false⟩ := by
  have hsing : ∀ s, (analyzeQuery [s]).write_operations = stmtOps s := by
    intro s
    rw [analyzeQuery_eq]
    show allOps [s] = _
    show stmtOps s ∪ allOps [] = _
    rw [show allOps ([] : List (List Token)) = ∅ from rfl, Finset.union_empty]
  have hsingc : ∀ s, (analyzeQuery [s]).has_cte_write = stmtCteFlag s := by
    intro s
    rw [analyzeQuery_eq]
    show anyCte [s] = _
    simp [anyCte]
  refine ⟨?_, ?_, by decide⟩
  · intro parsed
    constructor
    · rw [analyzeQuery_eq]
      show allOps parsed = _
      induction parsed with
      | nil => rfl
      | cons s ps ih =>
          rw [List.foldr_cons, hsing s, ← ih]
          rfl
    · rw [analyzeQuery_eq]
      show anyCte parsed = _
      unfold anyCte
      congr 1
      funext s
      rw [hsingc s]
  · intro l1 l2 hperm
    have hops : allOps l1 = allOps l2 := by
      apply Finset.ext
      intro x
      rw [mem_allOps, mem_allOps]
      constructor
      · rintro ⟨s, hs, hx⟩
        exact ⟨s, hperm.mem_iff.mp hs, hx⟩
      · rintro ⟨s, hs, hx⟩
        exact ⟨s, hperm.mem_iff.mpr hs, hx⟩
    have hcte : anyCte l1 = anyCte l2 := by
      have hiff : (List.any l1 stmtCteFlag = true) ↔ (List.any l2 stmtCteFlag = true) := by
        rw [List.any_eq_true, List.any_eq_true]
        constructor
        · rintro ⟨s, hs, hf⟩
          exact ⟨s, hperm.mem_iff.mp hs, hf⟩
        · rintro ⟨s, hs, hf⟩
          exact ⟨s, hperm.mem_iff.mpr hs, hf⟩
      have hbool : ∀ a b : Bool, (a = true ↔ b = true) → a = b := by decide
      exact hbool _ _ hiff
    rw [analyzeQuery_eq, analyzeQuery_eq, hops, hcte]

/-- C9, witness: permutation invariance applied at the concrete
two-statement parse of `"SELECT 1; UPDATE t SET x=1"`. -/
theorem claim_C9_witness :
    analyzeQuery [stmtUpdate, stmtSelect1] = analyzeQuery [stmtSelect1, stmtUpdate] :=
  claim_C9_merge.2.1 [stmtUpdate, stmtSelect1] [stmtSelect1, stmtUpdate]
    (List.Perm.swap _ _ _)

/-- C10: every member of `write_operations` other than the `"CTE_WRITE"`
marker comes from the exact-match full-statement search
(`_find_write_operations`) of some statement; the CTE-region scan itself
contributes only the marker.  At the concrete input
`"WITH update_count AS (SELECT 1) SELECT 2"` — where the CTE region matches
only via substring and no exact write-keyword token exists anywhere — the
result is `write_operations = {"CTE_WRITE"}`, without `"UPDATE"`. -/
theorem claim_C10_cte_marker :
    (∀ (parsed : List (List Token)) (kw : String),
      kw ∈ (analyzeQuery parsed).write_operations → kw ≠ "CTE_WRITE" →
        ∃ stmt ∈ parsed, kw ∈ findWriteOperations stmt) ∧
    analyzeQuery [stmtCteUpdateCount] = ⟨true, {"CTE_WRITE"}, true⟩ := by
  refine ⟨?_, by decide⟩
  intro parsed kw hmem hne
  rw [analyzeQuery_eq] at hmem
  have hmem' : kw ∈ allOps parsed := hmem
  rw [mem_allOps] at hmem'
  obtain ⟨s, hs, hks⟩ := hmem'
  unfold stmtOps at hks
  rw [Finset.mem_union] at hks
  rcases hks with hks | hks
  · by_cases hf : stmtCteFlag s
    · rw [if_pos hf, Finset.mem_singleton] at hks
      exact absurd hks hne
    · rw [if_neg hf] at hks
      exact absurd hks (Finset.not_mem_empty kw)
  · exact ⟨s, hs, hks⟩

/-- C10, witness at the concrete input `"UPDATE t SET x=1"`. -/
theorem claim_C10_witness :
    ∃ stmt ∈ [stmtUpdate], "UPDATE" ∈ findWriteOperations stmt :=
  claim_C10_cte_marker.1 [stmtUpdate] "UPDATE" (by decide) (by decide)

end WriteDetector
